import Mathlib

/-!
Shallow embedding of the commission engine of the nika-fi referral system
(`src/utils/commissionCalculator.ts`), together with the configuration
constants it reads (`src/config.ts`) and the data contracts it consumes
(`src/types`).

Modelling conventions:
- decimal.js exact decimal arithmetic is modelled by the rationals `ℚ`;
- JavaScript `Date` values are modelled by integer timestamps (`Int`),
  which preserves the comparison order used by the code;
- optional (`?:`) fields become `Option`; a present decimal.js object is
  always truthy in JavaScript, so `if (user.customFeeRate)` is `Option`
  pattern matching;
- `Array.prototype.sort` (stable since ES2019) with comparator
  `(a, b) => b.priority - a.priority` is modelled by the stable
  `List.insertionSort` with the relation `b.priority ≤ a.priority`
  (all stable sorts of a list under the same total preorder coincide,
  and `insertionSort` is structurally recursive, hence executable by the
  kernel on concrete catalogs);
- the imperative accumulation loop of `calculateCommissionDistribution`
  (push one optional record per level) is modelled by `List.filterMap`
  over the list of loop indices.
-/

namespace Nika

/-- Embeds `CustomCommissionStructure` from `src/types`: optional per-level
commission-rate overrides for KOL accounts.  The `type` tag is carried for
display only and does not affect calculations. -/
structure CustomCommissionStructure where
  level1Rate : Option ℚ
  level2Rate : Option ℚ
  level3Rate : Option ℚ
  type : String
  deriving DecidableEq, Repr

/-- Embeds `User` from `src/types` (the fields the commission engine can read). -/
structure User where
  id : String
  email : String
  username : Option String
  referralCode : String
  referrerId : Option String
  feeTier : String
  customFeeRate : Option ℚ
  feeDiscountRate : ℚ
  customCommissionStructure : Option CustomCommissionStructure
  isTeamMember : Bool
  isWaivedFees : Bool
  totalXpEarned : ℚ
  totalTradeVolume : ℚ
  totalFeesPaid : ℚ
  createdAt : Int
  updatedAt : Int
  lastActiveAt : Int
  deriving DecidableEq, Repr

/-- Embeds `FeeTier` from `src/types` (calculation-relevant fields). -/
structure FeeTier where
  id : String
  name : String
  minimumVolume : ℚ
  feeRate : ℚ
  isActive : Bool
  priority : Int
  deriving DecidableEq, Repr

/-- Embeds `FeeCalculationResult` from `src/types`. -/
structure FeeCalculationResult where
  originalFeeRate : ℚ
  appliedFeeRate : ℚ
  feeAmount : ℚ
  netFeeAmount : ℚ
  rebateAmount : ℚ
  discountApplied : Bool
  tierUsed : String
  deriving DecidableEq, Repr

/-- Embeds `TradeStatus` from `src/types`. -/
inductive TradeStatus where
  | PENDING
  | COMPLETED
  | FAILED
  | CANCELLED
  deriving DecidableEq, Repr

/-- Embeds `Trade` from `src/types`. -/
structure Trade where
  id : String
  userId : String
  tradeType : String
  baseAsset : String
  quoteAsset : String
  side : String
  volume : ℚ
  price : ℚ
  feeRate : ℚ
  feeAmount : ℚ
  netFeeAmount : ℚ
  rebateAmount : ℚ
  chain : String
  network : String
  transactionHash : Option String
  status : TradeStatus
  createdAt : Int
  updatedAt : Int
  deriving DecidableEq, Repr

/-- Embeds `CommissionStatus` from `src/types`. -/
inductive CommissionStatus where
  | UNCLAIMED
  | CLAIMED
  | PROCESSING
  | FAILED
  deriving DecidableEq, Repr

/-- Embeds `Commission` from `src/types` (the fields the earnings aggregator reads). -/
structure Commission where
  id : String
  amount : ℚ
  tokenType : String
  commissionLevel : Nat
  rate : ℚ
  earnerId : String
  sourceUserId : String
  tradeId : String
  originalFeeAmount : ℚ
  status : CommissionStatus
  createdAt : Int
  deriving DecidableEq, Repr

/-- Embeds `CommissionDistribution` from `src/types`. -/
structure CommissionDistribution where
  level : Nat
  earnerId : String
  earnerEmail : String
  amount : ℚ
  rate : ℚ
  commissionId : String
  deriving DecidableEq, Repr

/-- The per-level standard commission rates of `referralConfig.rates` in
`src/config.ts` (environment defaults 0.30 / 0.03 / 0.02). -/
structure CommissionRates where
  level1 : ℚ
  level2 : ℚ
  level3 : ℚ
  deriving DecidableEq, Repr

/-- Embeds `CommissionConfig` from `src/types`, instantiated by `referralConfig`. -/
structure CommissionConfig where
  maxDepth : Nat
  rates : CommissionRates
  defaultFeeDiscount : ℚ
  baseFeeRate : ℚ
  deriving DecidableEq, Repr

/-- Embeds `referralConfig` from `src/config.ts` with its environment defaults:
rates 0.30 / 0.03 / 0.02, default fee discount 0.10, base fee rate 0.01. -/
def referralConfig : CommissionConfig where
  maxDepth := 3
  rates := { level1 := 3 / 10, level2 := 3 / 100, level3 := 1 / 50 }
  defaultFeeDiscount := 1 / 10
  baseFeeRate := 1 / 100

/-- The two fields of `businessRules` from `src/config.ts` that the
commission engine reads: `maxReferralDepth = 3` and
`minimumCommissionAmount = 0.01`. -/
structure BusinessRules where
  maxReferralDepth : Nat
  minimumCommissionAmount : ℚ
  deriving DecidableEq, Repr

/-- The values of `businessRules` in `src/config.ts`. -/
def businessRules : BusinessRules where
  maxReferralDepth := 3
  minimumCommissionAmount := 1 / 100

/-- The filter-and-sort step shared by `calculateEffectiveFeeRate` and
`calculateOptimalFeeTier`: keep `isActive` tiers and sort them by
`priority` descending (stable, as ES2019 `Array.prototype.sort` is). -/
def sortedActiveTiers (availableFeeTiers : List FeeTier) : List FeeTier :=
  (availableFeeTiers.filter (fun tier => tier.isActive)).insertionSort
    (fun a b => b.priority ≤ a.priority)

/-- The `bestTier` scan of `calculateEffectiveFeeRate`: the first tier of the
filtered-and-sorted catalog whose `minimumVolume` does not exceed the user's
lifetime volume. -/
def bestApplicableTier (user : User) (availableFeeTiers : List FeeTier) :
    Option FeeTier :=
  (sortedActiveTiers availableFeeTiers).find?
    (fun tier => decide (tier.minimumVolume ≤ user.totalTradeVolume))

/-- Embeds `CommissionCalculator.calculateEffectiveFeeRate` from
`src/utils/commissionCalculator.ts`. -/
def calculateEffectiveFeeRate (user : User) (tradeVolume : ℚ)
    (availableFeeTiers : List FeeTier) : FeeCalculationResult :=
  if user.isTeamMember || user.isWaivedFees then
    { originalFeeRate := 0, appliedFeeRate := 0, feeAmount := 0,
      netFeeAmount := 0, rebateAmount := 0, discountApplied := false,
      tierUsed := "WAIVED" }
  else
    match user.customFeeRate with
    | some customFeeRate =>
      let feeAmount := tradeVolume * customFeeRate
      { originalFeeRate := customFeeRate, appliedFeeRate := customFeeRate,
        feeAmount := feeAmount, netFeeAmount := feeAmount, rebateAmount := 0,
        discountApplied := false, tierUsed := "CUSTOM" }
    | none =>
      let baseFeeRate := referralConfig.baseFeeRate
      let bestTier := bestApplicableTier user availableFeeTiers
      let discountedBaseRate := baseFeeRate * (1 - user.feeDiscountRate)
      let choice : ℚ × String × Bool :=
        match bestTier with
        | some tier =>
          if tier.feeRate < discountedBaseRate then
            (tier.feeRate, tier.name, false)
          else
            (discountedBaseRate, "BASE", decide (0 < user.feeDiscountRate))
        | none =>
          (discountedBaseRate, "BASE", decide (0 < user.feeDiscountRate))
      let feeAmount := tradeVolume * baseFeeRate
      let netFeeAmount := tradeVolume * choice.1
      { originalFeeRate := baseFeeRate, appliedFeeRate := choice.1,
        feeAmount := feeAmount, netFeeAmount := netFeeAmount,
        rebateAmount := feeAmount - netFeeAmount,
        discountApplied := choice.2.2, tierUsed := choice.2.1 }

/-- Embeds `CommissionCalculator.getCustomCommissionRate` from
`src/utils/commissionCalculator.ts`: a per-level override when set, else the
standard configured rate (`??` is `Option.getD`). -/
def getCustomCommissionRate (customStructure : CustomCommissionStructure)
    (level : Nat) : ℚ :=
  match level with
  | 1 => customStructure.level1Rate.getD referralConfig.rates.level1
  | 2 => customStructure.level2Rate.getD referralConfig.rates.level2
  | 3 => customStructure.level3Rate.getD referralConfig.rates.level3
  | _ => 0

/-- Embeds `CommissionCalculator.getCommissionRate` from
`src/utils/commissionCalculator.ts`. -/
def getCommissionRate (referrer : User) (level : Nat) : ℚ :=
  match referrer.customCommissionStructure with
  | some customStructure => getCustomCommissionRate customStructure level
  | none =>
    match level with
    | 1 => referralConfig.rates.level1
    | 2 => referralConfig.rates.level2
    | 3 => referralConfig.rates.level3
    | _ => 0

/-- One iteration of the distribution loop of
`calculateCommissionDistribution`, at zero-based chain index `i`
(loop level `i + 1`): `none` when the loop pushes nothing. -/
def commissionEntry (netFeeAmount : ℚ) (referralChain : List User) (i : Nat) :
    Option CommissionDistribution :=
  match referralChain.get? i with
  | none => none
  | some referrer =>
    if referrer.isTeamMember then none
    else
      let commissionRate := getCommissionRate referrer (i + 1)
      let commissionAmount := netFeeAmount * commissionRate
      if businessRules.minimumCommissionAmount ≤ commissionAmount then
        some { level := i + 1, earnerId := referrer.id,
               earnerEmail := referrer.email, amount := commissionAmount,
               rate := commissionRate, commissionId := "" }
      else none

/-- Embeds `CommissionCalculator.calculateCommissionDistribution` from
`src/utils/commissionCalculator.ts`.  The `for level = 1 ..
min(chain.length, maxReferralDepth)` push-loop is `List.filterMap` of
`commissionEntry` over the zero-based loop indices. -/
def calculateCommissionDistribution (trade : Trade) (trader : User)
    (referralChain : List User)
    (feeCalculationResult : FeeCalculationResult) :
    List CommissionDistribution :=
  let netFeeAmount := feeCalculationResult.netFeeAmount
  if netFeeAmount ≤ 0 then []
  else
    (List.range (min referralChain.length businessRules.maxReferralDepth)).filterMap
      (commissionEntry netFeeAmount referralChain)

/-- A team-member account used to instantiate universally quantified
theorems; every fee-related benefit field is deliberately nonzero. -/
def teamMemberUser : User where
  id := "team-1"
  email := "team@nika.fi"
  username := some "teammate"
  referralCode := "NIKA0001"
  referrerId := none
  feeTier := "VIP"
  customFeeRate := some (1 / 2)
  feeDiscountRate := 7 / 10
  customCommissionStructure := none
  isTeamMember := true
  isWaivedFees := false
  totalXpEarned := 5
  totalTradeVolume := 123456
  totalFeesPaid := 42
  createdAt := 0
  updatedAt := 0
  lastActiveAt := 0

/-- A plain account (no custom structure, not a team member) used to
instantiate universally quantified theorems. -/
def plainReferrer : User where
  id := "plain-1"
  email := "plain@example.com"
  username := none
  referralCode := "NIKA0002"
  referrerId := none
  feeTier := "BASE"
  customFeeRate := none
  feeDiscountRate := 0
  customCommissionStructure := none
  isTeamMember := false
  isWaivedFees := false
  totalXpEarned := 0
  totalTradeVolume := 0
  totalFeesPaid := 0
  createdAt := 0
  updatedAt := 0
  lastActiveAt := 0

/-- A sample completed trade used to instantiate universally quantified
theorems about the distributor (which never reads it). -/
def sampleTrade : Trade where
  id := "t1"
  userId := "u1"
  tradeType := "SPOT"
  baseAsset := "SOL"
  quoteAsset := "USDC"
  side := "BUY"
  volume := 10
  price := 100
  feeRate := 1 / 100
  feeAmount := 10
  netFeeAmount := 10
  rebateAmount := 0
  chain := "SVM"
  network := "Solana"
  transactionHash := none
  status := TradeStatus.COMPLETED
  createdAt := 0
  updatedAt := 0

/-- A fee-calculation result with a zero net fee. -/
def zeroFeeResult : FeeCalculationResult where
  originalFeeRate := 0
  appliedFeeRate := 0
  feeAmount := 0
  netFeeAmount := 0
  rebateAmount := 0
  discountApplied := false
  tierUsed := "WAIVED"

/-- A fee-calculation result whose net fee is 450, matching the worked
scenarios of the specification. -/
def fee450Result : FeeCalculationResult where
  originalFeeRate := 1 / 100
  appliedFeeRate := 1 / 100
  feeAmount := 450
  netFeeAmount := 450
  rebateAmount := 0
  discountApplied := false
  tierUsed := "BASE"

/-- A custom commission structure overriding only the level-1 rate, as the
`KOL_50` preset of `src/config.ts` does. -/
def kolStructure : CustomCommissionStructure where
  level1Rate := some (1 / 2)
  level2Rate := none
  level3Rate := none
  type := "KOL_50"

/-- A KOL account carrying `kolStructure`. -/
def kolUser : User where
  id := "kol-1"
  email := "kol@example.com"
  username := some "kol"
  referralCode := "NIKA0003"
  referrerId := none
  feeTier := "BASE"
  customFeeRate := none
  feeDiscountRate := 0
  customCommissionStructure := some kolStructure
  isTeamMember := false
  isWaivedFees := false
  totalXpEarned := 0
  totalTradeVolume := 0
  totalFeesPaid := 0
  createdAt := 0
  updatedAt := 0
  lastActiveAt := 0

/-- The five `feeTierDefinitions` of `src/config.ts`, instantiated as active
`FeeTier` rows. -/
def configFeeTiers : List FeeTier :=
  [{ id := "ft-base", name := "BASE", minimumVolume := 0, feeRate := 1 / 100,
     isActive := true, priority := 0 },
   { id := "ft-1", name := "TIER1", minimumVolume := 10000,
     feeRate := 1 / 125, isActive := true, priority := 1 },
   { id := "ft-2", name := "TIER2", minimumVolume := 50000,
     feeRate := 3 / 500, isActive := true, priority := 2 },
   { id := "ft-3", name := "TIER3", minimumVolume := 200000,
     feeRate := 1 / 200, isActive := true, priority := 3 },
   { id := "ft-vip", name := "VIP", minimumVolume := 1000000,
     feeRate := 3 / 1000, isActive := true, priority := 4 }]

/-- A trader with the default 10% signup discount and a lifetime volume of
15000, matching scenario 3 of the specification. -/
def discountTrader : User where
  id := "trader-1"
  email := "trader@example.com"
  username := none
  referralCode := "NIKA0004"
  referrerId := some "plain-1"
  feeTier := "TIER1"
  customFeeRate := none
  feeDiscountRate := 1 / 10
  customCommissionStructure := none
  isTeamMember := false
  isWaivedFees := false
  totalXpEarned := 0
  totalTradeVolume := 15000
  totalFeesPaid := 100
  createdAt := 0
  updatedAt := 0
  lastActiveAt := 0

/-- An account whose stored `feeDiscountRate` exceeds 1 (nothing in the code
clamps the field). -/
def surchargedUser : User where
  id := "odd-1"
  email := "odd@example.com"
  username := none
  referralCode := "NIKA0005"
  referrerId := none
  feeTier := "BASE"
  customFeeRate := none
  feeDiscountRate := 2
  customCommissionStructure := none
  isTeamMember := false
  isWaivedFees := false
  totalXpEarned := 0
  totalTradeVolume := 0
  totalFeesPaid := 0
  createdAt := 0
  updatedAt := 0
  lastActiveAt := 0

/-- An active catalog tier with a negative fee rate (nothing in the code
constrains tier rates). -/
def negFeeTier : FeeTier where
  id := "ft-neg"
  name := "NEG"
  minimumVolume := 0
  feeRate := -1
  isActive := true
  priority := 0

/-- Embeds `CommissionCalculator.calculateOptimalFeeTier` from
`src/utils/commissionCalculator.ts`: first active tier (highest priority
first) whose `minimumVolume` does not exceed the volume, else the active
tier named `BASE`, else the first filtered-and-sorted tier.  The TS
function returns `undefined` on an empty active catalog; that escape is
modelled as `none`. -/
def calculateOptimalFeeTier (userVolume : ℚ)
    (availableFeeTiers : List FeeTier) : Option FeeTier :=
  let activeTiers := sortedActiveTiers availableFeeTiers
  match activeTiers.find?
      (fun tier => decide (tier.minimumVolume ≤ userVolume)) with
  | some tier => some tier
  | none =>
    match activeTiers.find? (fun tier => tier.name == "BASE") with
    | some tier => some tier
    | none => activeTiers.head?

/-- A catalog whose zero-volume fallback is missing: the tier named `BASE`
has a high minimum volume while another active tier has a low one. -/
def gappedFeeTiers : List FeeTier :=
  [{ id := "ft-base", name := "BASE", minimumVolume := 1000,
     feeRate := 1 / 100, isActive := true, priority := 0 },
   { id := "ft-x", name := "X", minimumVolume := 5, feeRate := 1 / 125,
     isActive := true, priority := 1 }]

/-- The circular-reference loop of
`CommissionCalculator.validateReferralChain`: walks the chain keeping the
set of ids seen so far (the `Set<string>` of the source, modelled as the
list of inserted ids) and reports `true` on the first repeat. -/
def chainHasDuplicate (seenIds : List String) : List User → Bool
  | [] => false
  | user :: rest =>
    if seenIds.contains user.id then true
    else chainHasDuplicate (user.id :: seenIds) rest

/-- Embeds `CommissionCalculator.validateReferralChain` from
`src/utils/commissionCalculator.ts`: self-reference check, then the
circular-reference loop, then the maximum-depth check. -/
def validateReferralChain (userId : String) (referralChain : List User) :
    Bool :=
  if referralChain.any (fun user => user.id == userId) then false
  else if chainHasDuplicate [] referralChain then false
  else if businessRules.maxReferralDepth < referralChain.length then false
  else true

/-- The claim-relevant aggregate fields of the record returned by
`calculateEarningsBreakdown` (the per-level, per-token and per-day
breakdowns of the TS return value are untouched by every claim and are
omitted from the embedding). -/
structure EarningsBreakdown where
  totalEarnings : ℚ
  claimedEarnings : ℚ
  unclaimedEarnings : ℚ
  deriving DecidableEq, Repr

/-- Embeds `CommissionCalculator.calculateEarningsBreakdown` from
`src/utils/commissionCalculator.ts` (aggregate fields): filter by the
optional date window exactly as the source does (`commissionDate <
startDate` or `commissionDate > endDate` excludes, and no filter pass at
all when neither bound is given), then reduce. -/
def calculateEarningsBreakdown (commissions : List Commission)
    (startDate endDate : Option Int) : EarningsBreakdown :=
  let filteredCommissions :=
    if startDate.isSome || endDate.isSome then
      commissions.filter (fun commission =>
        if startDate.any (fun sd => decide (commission.createdAt < sd)) then
          false
        else if endDate.any
            (fun ed => decide (ed < commission.createdAt)) then
          false
        else true)
    else commissions
  let totalEarnings :=
    filteredCommissions.foldl (fun sum commission => sum + commission.amount) 0
  let claimedEarnings :=
    (filteredCommissions.filter
        (fun commission =>
          commission.status == CommissionStatus.CLAIMED)).foldl
      (fun sum commission => sum + commission.amount) 0
  { totalEarnings := totalEarnings, claimedEarnings := claimedEarnings,
    unclaimedEarnings := totalEarnings - claimedEarnings }

/-- Spec-side window predicate, stated from the claim's words (to be
compared with the filter the code performs): the creation date lies in the
optional window, with both bounds inclusive. -/
def keptInWindowSpec (startDate endDate : Option Int) (c : Commission) :
    Bool :=
  (match startDate with
   | some sd => decide (sd ≤ c.createdAt)
   | none => true) &&
  (match endDate with
   | some ed => decide (c.createdAt ≤ ed)
   | none => true)

/-- Characterization of one loop iteration: the shape every pushed
distribution record has, and the exact condition under which it is pushed. -/
theorem commissionEntry_eq_some_iff {netFeeAmount : ℚ}
    {referralChain : List User} {i : Nat} {d : CommissionDistribution} :
    commissionEntry netFeeAmount referralChain i = some d ↔
      ∃ referrer, referralChain.get? i = some referrer ∧
        referrer.isTeamMember = false ∧
        businessRules.minimumCommissionAmount ≤
          netFeeAmount * getCommissionRate referrer (i + 1) ∧
        d = { level := i + 1, earnerId := referrer.id,
              earnerEmail := referrer.email,
              amount := netFeeAmount * getCommissionRate referrer (i + 1),
              rate := getCommissionRate referrer (i + 1), commissionId := "" } := by
  unfold commissionEntry
  cases hget : referralChain.get? i with
  | none => simp
  | some referrer =>
    cases htm : referrer.isTeamMember with
    | true => simp [htm]
    | false =>
      by_cases hmin : businessRules.minimumCommissionAmount ≤
          netFeeAmount * getCommissionRate referrer (i + 1)
      · simp only [htm, Bool.false_eq_true, if_false, if_pos hmin]
        constructor
        · rintro h
          exact ⟨referrer, rfl, htm, hmin, (Option.some.inj h).symm⟩
        · rintro ⟨r, hr, _, _, rfl⟩
          obtain rfl := Option.some.inj hr
          rfl
      · simp only [htm, Bool.false_eq_true, if_false, if_neg hmin]
        constructor
        · rintro h; exact absurd h (by simp)
        · rintro ⟨r, hr, _, hm, rfl⟩
          obtain rfl := Option.some.inj hr
          exact absurd hm hmin

/-- Membership characterization of the distribution list. -/
theorem mem_calculateCommissionDistribution {trade : Trade} {trader : User}
    {referralChain : List User} {feeCalculationResult : FeeCalculationResult}
    {d : CommissionDistribution} :
    d ∈ calculateCommissionDistribution trade trader referralChain
        feeCalculationResult ↔
      0 < feeCalculationResult.netFeeAmount ∧
        ∃ i < min referralChain.length businessRules.maxReferralDepth,
          commissionEntry feeCalculationResult.netFeeAmount referralChain i =
            some d := by
  unfold calculateCommissionDistribution
  by_cases hfee : feeCalculationResult.netFeeAmount ≤ 0
  · simp [hfee, not_lt.mpr hfee]
  · simp only [if_neg hfee, List.mem_filterMap, List.mem_range]
    constructor
    · rintro ⟨i, hi, hentry⟩
      exact ⟨not_le.mp hfee, i, hi, hentry⟩
    · rintro ⟨-, i, hi, hentry⟩
      exact ⟨i, hi, hentry⟩

/-- The duplicate-scanning loop returns `false` exactly when the chain ids
are pairwise distinct and none of them was already seen. -/
theorem chainHasDuplicate_eq_false (seenIds : List String)
    (chain : List User) :
    chainHasDuplicate seenIds chain = false ↔
      (chain.map (fun user => user.id)).Nodup ∧
        ∀ user ∈ chain, user.id ∉ seenIds := by
  induction chain generalizing seenIds with
  | nil => simp [chainHasDuplicate]
  | cons u rest ih =>
    cases hc : seenIds.contains u.id with
    | true =>
      have hmem : u.id ∈ seenIds := by simpa using hc
      rw [show chainHasDuplicate seenIds (u :: rest) = true from by
        simp [chainHasDuplicate, hmem]]
      simp only [Bool.true_eq_false, false_iff, not_and]
      intro _ hall
      exact absurd hmem (hall u (List.mem_cons_self u rest))
    | false =>
      have hmem : u.id ∉ seenIds := by simpa using hc
      rw [show chainHasDuplicate seenIds (u :: rest) =
          chainHasDuplicate (u.id :: seenIds) rest from by
        simp [chainHasDuplicate, hmem]]
      rw [ih]
      simp only [List.map_cons, List.nodup_cons, List.mem_map,
        List.mem_cons, List.mem_cons]
      constructor
      · rintro ⟨hnodup, hall⟩
        refine ⟨⟨?_, hnodup⟩, ?_⟩
        · rintro ⟨v, hv, hvid⟩
          exact absurd (Or.inl hvid) (hall v hv)
        · rintro v (rfl | hv)
          · exact hmem
          · intro hidmem
            exact absurd (Or.inr hidmem) (hall v hv)
      · rintro ⟨⟨hnomem, hnodup⟩, hall⟩
        refine ⟨hnodup, ?_⟩
        rintro v hv (heq | hidmem)
        · exact hnomem ⟨v, hv, heq⟩
        · exact absurd hidmem (hall v (Or.inr hv))

/-- Claim C6: the chain validator returns `false` exactly when the candidate
id occurs in the chain, or some account id occurs more than once in the
chain, or the chain is longer than the maximum depth 3; in every other case
it returns `true`. -/
theorem chain_validation_rule (userId : String) (referralChain : List User) :
    validateReferralChain userId referralChain = false ↔
      ((∃ user ∈ referralChain, user.id = userId) ∨
        ¬ (referralChain.map (fun user => user.id)).Nodup ∨
        3 < referralChain.length) := by
  have hdup := chainHasDuplicate_eq_false [] referralChain
  simp only [List.not_mem_nil, not_false_iff, implies_true, and_true] at hdup
  unfold validateReferralChain
  cases h1 : referralChain.any (fun user => user.id == userId) with
  | true =>
    simp only [if_true]
    have : ∃ user ∈ referralChain, user.id = userId := by
      simpa using h1
    simpa using Or.inl this
  | false =>
    have h1m : ¬ ∃ user ∈ referralChain, user.id = userId := by
      simpa using h1
    simp only [Bool.false_eq_true, if_false]
    cases h2 : chainHasDuplicate [] referralChain with
    | true =>
      have : ¬ (referralChain.map (fun user => user.id)).Nodup := by
        intro hn
        exact absurd (hdup.mpr hn) (by simp [h2])
      simp [h1m, this]
    | false =>
      have hnodup : (referralChain.map (fun user => user.id)).Nodup :=
        hdup.mp h2
      by_cases h3 : businessRules.maxReferralDepth < referralChain.length
      · simp only [if_pos h3]
        have h3' : 3 < referralChain.length := h3
        simp [h1m, hnodup, h3']
      · simp only [if_neg h3]
        have h3' : ¬ 3 < referralChain.length := h3
        simp [h1m, hnodup, h3']

/-- Claim C10: the distribution list depends only on the referral chain and
the fee-calculation result — two calls with arbitrary different `trade` and
`trader` values return identical lists.  The equality is definitional
because neither parameter is inspected by the function body. -/
theorem distribution_ignores_trade_and_trader (trade1 trade2 : Trade)
    (trader1 trader2 : User) (referralChain : List User)
    (feeCalculationResult : FeeCalculationResult) :
    calculateCommissionDistribution trade1 trader1 referralChain
        feeCalculationResult =
      calculateCommissionDistribution trade2 trader2 referralChain
        feeCalculationResult := rfl

/-- Claim C9: the distribution list has at most `min (chain length) 3`
entries, its level fields are non-decreasing and each lies in `{1, 2, 3}`,
and a non-positive net fee yields the empty list. -/
theorem distribution_shape (trade : Trade) (trader : User)
    (referralChain : List User) (feeResult : FeeCalculationResult) :
    (calculateCommissionDistribution trade trader referralChain
        feeResult).length ≤ min referralChain.length 3 ∧
      List.Pairwise (fun d1 d2 => d1.level ≤ d2.level)
        (calculateCommissionDistribution trade trader referralChain feeResult) ∧
      (∀ d ∈ calculateCommissionDistribution trade trader referralChain
          feeResult, 1 ≤ d.level ∧ d.level ≤ 3) ∧
      (feeResult.netFeeAmount ≤ 0 →
        calculateCommissionDistribution trade trader referralChain feeResult =
          []) := by
  refine ⟨?_, ?_, ?_, ?_⟩
  · unfold calculateCommissionDistribution
    by_cases hfee : feeResult.netFeeAmount ≤ 0
    · simp [hfee]
    · simp only [if_neg hfee]
      calc ((List.range (min referralChain.length
              businessRules.maxReferralDepth)).filterMap
              (commissionEntry feeResult.netFeeAmount referralChain)).length
          ≤ (List.range (min referralChain.length
              businessRules.maxReferralDepth)).length :=
            List.length_filterMap_le _ _
        _ = min referralChain.length 3 := by
            rw [List.length_range]
            rfl
  · unfold calculateCommissionDistribution
    by_cases hfee : feeResult.netFeeAmount ≤ 0
    · simp [hfee]
    · simp only [if_neg hfee]
      refine List.pairwise_filterMap.mpr ?_
      refine (List.pairwise_lt_range _).imp ?_
      intro i j hij d hd d' hd'
      obtain ⟨-, -, -, -, rfl⟩ :=
        commissionEntry_eq_some_iff.mp (Option.mem_def.mp hd)
      obtain ⟨-, -, -, -, rfl⟩ :=
        commissionEntry_eq_some_iff.mp (Option.mem_def.mp hd')
      exact Nat.succ_le_succ (Nat.le_of_lt hij)
  · intro d hd
    obtain ⟨-, i, hi, hentry⟩ := mem_calculateCommissionDistribution.mp hd
    obtain ⟨-, -, -, -, rfl⟩ := commissionEntry_eq_some_iff.mp hentry
    have h3 : i < 3 := lt_of_lt_of_le hi (min_le_right _ _)
    exact ⟨Nat.succ_le_succ (Nat.zero_le i), Nat.succ_le_of_lt h3⟩
  · intro hfee
    unfold calculateCommissionDistribution
    simp [hfee]

/-- Claim C9, instantiated at a singleton chain and a fee result with zero
net fee: the hypothesis of the final conjunct is discharged concretely. -/
theorem distribution_shape_witness :
    calculateCommissionDistribution sampleTrade plainReferrer [teamMemberUser]
        zeroFeeResult = [] :=
  (distribution_shape _ _ _ _).2.2.2 (le_refl 0)

/-- Claim C4: a team-member referrer produces no distribution and later chain
positions keep their position-based level number: every emitted record's
earner is exactly the non-team-member at chain position `level - 1`; and for
a chain `[teamMember, plainReferrer]` with net fee 450 and standard rates the
output is exactly one record `{level := 2, amount := 13.5, rate := 0.03}` for
the plain referrer — level 1 is dropped, not renumbered. -/
theorem team_member_skip_preserves_levels :
    (∀ (trade : Trade) (trader : User) (referralChain : List User)
        (feeResult : FeeCalculationResult) (d : CommissionDistribution),
      d ∈ calculateCommissionDistribution trade trader referralChain
          feeResult →
        ∃ referrer, referralChain.get? (d.level - 1) = some referrer ∧
          referrer.isTeamMember = false ∧ d.earnerId = referrer.id) ∧
      (∀ (trade : Trade) (trader : User) (tm pr : User)
          (feeResult : FeeCalculationResult),
        tm.isTeamMember = true → pr.isTeamMember = false →
          pr.customCommissionStructure = none →
          feeResult.netFeeAmount = 450 →
          calculateCommissionDistribution trade trader [tm, pr] feeResult =
            [{ level := 2, earnerId := pr.id, earnerEmail := pr.email,
               amount := 27 / 2, rate := 3 / 100, commissionId := "" }]) := by
  constructor
  · intro trade trader referralChain feeResult d hd
    obtain ⟨-, i, -, hentry⟩ := mem_calculateCommissionDistribution.mp hd
    obtain ⟨referrer, hget, htm, -, rfl⟩ :=
      commissionEntry_eq_some_iff.mp hentry
    exact ⟨referrer, by simpa using hget, htm, rfl⟩
  · intro trade trader tm pr feeResult htm hpr hcs hfee
    have h0 : commissionEntry 450 [tm, pr] 0 = none := by
      simp [commissionEntry, htm]
    have h1 : commissionEntry 450 [tm, pr] 1 =
        some { level := 2, earnerId := pr.id, earnerEmail := pr.email,
               amount := 27 / 2, rate := 3 / 100, commissionId := "" } := by
      simp only [commissionEntry, List.get?_cons_succ, List.get?_cons_zero,
        hpr, Bool.false_eq_true, if_false, getCommissionRate, hcs]
      norm_num [businessRules, referralConfig]
    simp only [calculateCommissionDistribution, hfee]
    rw [if_neg (by norm_num)]
    rw [show List.range (min (List.length [tm, pr])
        businessRules.maxReferralDepth) = [0, 1] from rfl]
    simp [List.filterMap_cons, h0, h1]

/-- Claim C4, instantiated: the two-element chain made of the sample team
member and the sample plain referrer, with net fee 450. -/
theorem team_member_skip_preserves_levels_witness :
    calculateCommissionDistribution sampleTrade plainReferrer
        [teamMemberUser, plainReferrer] fee450Result =
      [{ level := 2, earnerId := "plain-1",
         earnerEmail := "plain@example.com", amount := 27 / 2,
         rate := 3 / 100, commissionId := "" }] :=
  team_member_skip_preserves_levels.2 sampleTrade plainReferrer teamMemberUser
    plainReferrer fee450Result rfl rfl rfl rfl

/-- Claim C5: for a chain position the loop reaches (positive net fee, index
below `min (chain length) 3`, referrer not a team member), the applicable
rate is the referrer's custom per-level rate when present and set, else the
standard configured rate (0.30 / 0.03 / 0.02); the amount is exactly
`netFeeAmount * rate`; and a distribution for that level is emitted if and
only if the amount is at least the 0.01 minimum threshold — sub-threshold
amounts produce no entry and are never accumulated into another entry. -/
theorem distribution_rate_and_threshold (trade : Trade) (trader : User)
    (referralChain : List User) (feeResult : FeeCalculationResult)
    (hfee : 0 < feeResult.netFeeAmount) (i : Nat)
    (hi : i < min referralChain.length 3) (referrer : User)
    (hget : referralChain.get? i = some referrer)
    (htm : referrer.isTeamMember = false) (rate : ℚ)
    (hrate : rate =
      match referrer.customCommissionStructure with
      | some s =>
        match i + 1 with
        | 1 => s.level1Rate.getD (3 / 10)
        | 2 => s.level2Rate.getD (3 / 100)
        | 3 => s.level3Rate.getD (1 / 50)
        | _ => 0
      | none =>
        match i + 1 with
        | 1 => (3 : ℚ) / 10
        | 2 => (3 : ℚ) / 100
        | 3 => (1 : ℚ) / 50
        | _ => 0) :
    ((1 : ℚ) / 100 ≤ feeResult.netFeeAmount * rate →
        { level := i + 1, earnerId := referrer.id,
          earnerEmail := referrer.email,
          amount := feeResult.netFeeAmount * rate, rate := rate,
          commissionId := "" } ∈
          calculateCommissionDistribution trade trader referralChain
            feeResult) ∧
      (feeResult.netFeeAmount * rate < 1 / 100 →
        ∀ d ∈ calculateCommissionDistribution trade trader referralChain
            feeResult, d.level ≠ i + 1) ∧
      (∀ d ∈ calculateCommissionDistribution trade trader referralChain
          feeResult, d.level = i + 1 →
        d.rate = rate ∧ d.amount = feeResult.netFeeAmount * rate ∧
          d.earnerId = referrer.id ∧ (1 : ℚ) / 100 ≤ d.amount) := by
  have hrate2 : rate = getCommissionRate referrer (i + 1) := by
    rw [hrate]
    unfold getCommissionRate getCustomCommissionRate
    cases referrer.customCommissionStructure <;>
      rcases i with _ | _ | _ | n <;> rfl
  subst hrate2
  refine ⟨?_, ?_, ?_⟩
  · intro hmin
    refine mem_calculateCommissionDistribution.mpr ⟨hfee, i, hi, ?_⟩
    exact commissionEntry_eq_some_iff.mpr ⟨referrer, hget, htm, hmin, rfl⟩
  · intro hlt d hd hlevel
    obtain ⟨-, j, -, hentry⟩ := mem_calculateCommissionDistribution.mp hd
    obtain ⟨referrer2, hget2, -, hmin2, rfl⟩ :=
      commissionEntry_eq_some_iff.mp hentry
    have hji : j = i := by simpa using hlevel
    subst hji
    rw [hget] at hget2
    obtain rfl := Option.some.inj hget2
    exact absurd hmin2 (not_le.mpr hlt)
  · intro d hd hlevel
    obtain ⟨-, j, -, hentry⟩ := mem_calculateCommissionDistribution.mp hd
    obtain ⟨referrer2, hget2, -, hmin2, rfl⟩ :=
      commissionEntry_eq_some_iff.mp hentry
    have hji : j = i := by simpa using hlevel
    subst hji
    rw [hget] at hget2
    obtain rfl := Option.some.inj hget2
    exact ⟨rfl, rfl, rfl, hmin2⟩

/-- Claim C5, instantiated: a KOL whose structure overrides the level-1 rate
to 0.50, at chain position 1, with net fee 450, earns 225. -/
theorem distribution_rate_and_threshold_witness :
    ({ level := 1, earnerId := "kol-1", earnerEmail := "kol@example.com",
       amount := 225, rate := 1 / 2,
       commissionId := "" } : CommissionDistribution) ∈
      calculateCommissionDistribution sampleTrade plainReferrer [kolUser]
        fee450Result := by
  have h := distribution_rate_and_threshold sampleTrade plainReferrer
    [kolUser] fee450Result (by norm_num [fee450Result]) 0 (by norm_num)
    kolUser rfl rfl (1 / 2) rfl
  have h1 := h.1 (by norm_num [fee450Result])
  have h450 : (450 : ℚ) * 2⁻¹ = 225 := by norm_num
  simpa [fee450Result, kolUser, h450] using h1

/-- Claim C1: for every account with `isTeamMember` or `isWaivedFees` set, the
fee-rate resolver returns a result whose `originalFeeRate`, `appliedFeeRate`,
`feeAmount`, `netFeeAmount` and `rebateAmount` are all zero, with
`tierUsed = "WAIVED"` and `discountApplied = false`, regardless of the trade
value, the tier catalog and every other account field. -/
theorem waived_accounts_pay_no_fees (user : User) (tradeVolume : ℚ)
    (availableFeeTiers : List FeeTier)
    (h : user.isTeamMember = true ∨ user.isWaivedFees = true) :
    calculateEffectiveFeeRate user tradeVolume availableFeeTiers =
      { originalFeeRate := 0, appliedFeeRate := 0, feeAmount := 0,
        netFeeAmount := 0, rebateAmount := 0, discountApplied := false,
        tierUsed := "WAIVED" } := by
  unfold calculateEffectiveFeeRate
  rcases h with h | h <;> simp [h]

/-- Claim C1, instantiated: the team-member account above, a trade of 1000 and
an empty catalog produce the all-zero waived result. -/
theorem waived_accounts_pay_no_fees_witness :
    calculateEffectiveFeeRate teamMemberUser 1000 [] =
      { originalFeeRate := 0, appliedFeeRate := 0, feeAmount := 0,
        netFeeAmount := 0, rebateAmount := 0, discountApplied := false,
        tierUsed := "WAIVED" } :=
  waived_accounts_pay_no_fees teamMemberUser 1000 [] (Or.inl rfl)

/-- Evaluation helper: in the non-waived, non-custom path, when the tier
scan finds a tier whose rate beats the discounted base rate, that tier's
rate is the applied rate. -/
theorem appliedFeeRate_of_tier (user : User) (tradeVolume : ℚ)
    (availableFeeTiers : List FeeTier) (bestTier : FeeTier)
    (h1 : user.isTeamMember = false) (h2 : user.isWaivedFees = false)
    (h3 : user.customFeeRate = none)
    (hfind : bestApplicableTier user availableFeeTiers = some bestTier)
    (hlt : bestTier.feeRate <
      referralConfig.baseFeeRate * (1 - user.feeDiscountRate)) :
    (calculateEffectiveFeeRate user tradeVolume
        availableFeeTiers).appliedFeeRate = bestTier.feeRate := by
  simp only [calculateEffectiveFeeRate, h1, h2, h3, hfind, Bool.or_false,
    Bool.false_eq_true, if_false, if_pos hlt]

/-- Claim C2: for every non-waived account without a custom fee rate, the
resolver scans the active tiers sorted by priority descending for the first
tier whose `minimumVolume` does not exceed the account's lifetime volume;
it uses that tier (its rate, its name, `discountApplied = false`) exactly
when it exists and its rate beats the discounted base rate, and otherwise
uses the discounted base rate with `tierUsed = "BASE"` and
`discountApplied` true exactly when `feeDiscountRate > 0`. -/
theorem tier_selection_rule (user : User) (tradeVolume : ℚ)
    (availableFeeTiers : List FeeTier)
    (h1 : user.isTeamMember = false) (h2 : user.isWaivedFees = false)
    (h3 : user.customFeeRate = none) :
    match (sortedActiveTiers availableFeeTiers).find?
        (fun tier => decide (tier.minimumVolume ≤ user.totalTradeVolume)) with
    | some bestTier =>
      if bestTier.feeRate <
          referralConfig.baseFeeRate * (1 - user.feeDiscountRate) then
        (calculateEffectiveFeeRate user tradeVolume
              availableFeeTiers).appliedFeeRate = bestTier.feeRate ∧
          (calculateEffectiveFeeRate user tradeVolume
              availableFeeTiers).tierUsed = bestTier.name ∧
          (calculateEffectiveFeeRate user tradeVolume
              availableFeeTiers).discountApplied = false
      else
        (calculateEffectiveFeeRate user tradeVolume
              availableFeeTiers).appliedFeeRate =
            referralConfig.baseFeeRate * (1 - user.feeDiscountRate) ∧
          (calculateEffectiveFeeRate user tradeVolume
              availableFeeTiers).tierUsed = "BASE" ∧
          ((calculateEffectiveFeeRate user tradeVolume
              availableFeeTiers).discountApplied = true ↔
            0 < user.feeDiscountRate)
    | none =>
      (calculateEffectiveFeeRate user tradeVolume
            availableFeeTiers).appliedFeeRate =
          referralConfig.baseFeeRate * (1 - user.feeDiscountRate) ∧
        (calculateEffectiveFeeRate user tradeVolume
            availableFeeTiers).tierUsed = "BASE" ∧
        ((calculateEffectiveFeeRate user tradeVolume
            availableFeeTiers).discountApplied = true ↔
          0 < user.feeDiscountRate) := by
  cases hfind : (sortedActiveTiers availableFeeTiers).find?
      (fun tier => decide (tier.minimumVolume ≤ user.totalTradeVolume)) with
  | none =>
    simp only [calculateEffectiveFeeRate, bestApplicableTier, h1, h2, h3,
      hfind, Bool.or_false, Bool.false_eq_true, if_false]
    simp
  | some bestTier =>
    simp only [calculateEffectiveFeeRate, bestApplicableTier, h1, h2, h3,
      hfind, Bool.or_false, Bool.false_eq_true, if_false]
    by_cases hlt : bestTier.feeRate <
        referralConfig.baseFeeRate * (1 - user.feeDiscountRate)
    · simp only [if_pos hlt]
      simp
    · simp only [if_neg hlt]
      simp

/-- Claim C2, instantiated at scenario 3 of the specification: volume 15000
against the configured catalog selects TIER1, whose 0.008 beats the
discounted base rate 0.009. -/
theorem tier_selection_rule_witness :
    (calculateEffectiveFeeRate discountTrader 1000
          configFeeTiers).appliedFeeRate = 1 / 125 ∧
      (calculateEffectiveFeeRate discountTrader 1000
          configFeeTiers).tierUsed = "TIER1" ∧
      (calculateEffectiveFeeRate discountTrader 1000
          configFeeTiers).discountApplied = false := by
  have h := tier_selection_rule discountTrader 1000 configFeeTiers rfl rfl rfl
  have hfind : (sortedActiveTiers configFeeTiers).find?
      (fun tier =>
        decide (tier.minimumVolume ≤ discountTrader.totalTradeVolume)) =
      some { id := "ft-1", name := "TIER1", minimumVolume := 10000,
             feeRate := 1 / 125, isActive := true, priority := 1 } := by
    rfl
  rw [hfind] at h
  simp only at h
  rw [if_pos (by norm_num [referralConfig, discountTrader])] at h
  exact h

/-- Claim C3 fails as stated: a stored `feeDiscountRate` above 1 makes the
applied rate negative, and so does an active tier with a negative rate. -/
theorem fee_rate_bounds_counterexample :
    (calculateEffectiveFeeRate surchargedUser 1 []).appliedFeeRate < 0 ∧
      (calculateEffectiveFeeRate plainReferrer 1
          [negFeeTier]).appliedFeeRate < 0 := by
  constructor
  · have h0 : (calculateEffectiveFeeRate surchargedUser 1 []).appliedFeeRate =
        referralConfig.baseFeeRate * (1 - surchargedUser.feeDiscountRate) :=
      rfl
    rw [h0]
    norm_num [referralConfig, surchargedUser]
  · have hfind1 : bestApplicableTier plainReferrer [negFeeTier] =
        some negFeeTier := rfl
    rw [appliedFeeRate_of_tier plainReferrer 1 [negFeeTier] negFeeTier rfl
      rfl rfl hfind1
      (by norm_num [negFeeTier, referralConfig, plainReferrer])]
    norm_num [negFeeTier]

/-- Claim C3, amended: for every non-waived account without a custom fee
rate, a non-negative trade value, a `feeDiscountRate` between 0 and 1, and a
catalog whose tiers all have non-negative rates, the applied rate lies
between 0 and the original (base) rate and the rebate equals
`feeAmount - netFeeAmount` and is non-negative. -/
theorem fee_rate_bounds (user : User) (tradeVolume : ℚ)
    (availableFeeTiers : List FeeTier)
    (h1 : user.isTeamMember = false) (h2 : user.isWaivedFees = false)
    (h3 : user.customFeeRate = none) (h4 : 0 ≤ tradeVolume)
    (h5 : 0 ≤ user.feeDiscountRate) (h6 : user.feeDiscountRate ≤ 1)
    (h7 : ∀ tier ∈ availableFeeTiers, 0 ≤ tier.feeRate) :
    0 ≤ (calculateEffectiveFeeRate user tradeVolume
          availableFeeTiers).appliedFeeRate ∧
      (calculateEffectiveFeeRate user tradeVolume
            availableFeeTiers).appliedFeeRate ≤
        (calculateEffectiveFeeRate user tradeVolume
            availableFeeTiers).originalFeeRate ∧
      (calculateEffectiveFeeRate user tradeVolume
            availableFeeTiers).rebateAmount =
        (calculateEffectiveFeeRate user tradeVolume
              availableFeeTiers).feeAmount -
          (calculateEffectiveFeeRate user tradeVolume
              availableFeeTiers).netFeeAmount ∧
      0 ≤ (calculateEffectiveFeeRate user tradeVolume
            availableFeeTiers).rebateAmount := by
  have hbase : referralConfig.baseFeeRate = 1 / 100 := rfl
  have hdbr0 : 0 ≤ referralConfig.baseFeeRate * (1 - user.feeDiscountRate) := by
    rw [hbase]; nlinarith
  have hdbr1 : referralConfig.baseFeeRate * (1 - user.feeDiscountRate) ≤
      referralConfig.baseFeeRate := by
    rw [hbase]; nlinarith
  cases hfind : (sortedActiveTiers availableFeeTiers).find?
      (fun tier => decide (tier.minimumVolume ≤ user.totalTradeVolume)) with
  | none =>
    simp only [calculateEffectiveFeeRate, bestApplicableTier, h1, h2, h3,
      hfind, Bool.or_false, Bool.false_eq_true, if_false]
    refine ⟨hdbr0, hdbr1, trivial, ?_⟩
    have := mul_le_mul_of_nonneg_left hdbr1 h4
    linarith
  | some bestTier =>
    have hmem : bestTier ∈ availableFeeTiers := by
      have hmem1 : bestTier ∈ sortedActiveTiers availableFeeTiers :=
        List.mem_of_find?_eq_some hfind
      have hmem2 : bestTier ∈ availableFeeTiers.filter
          (fun tier => tier.isActive) := by
        simpa [sortedActiveTiers, List.mem_insertionSort] using hmem1
      exact (List.mem_filter.mp hmem2).1
    have hrate0 : 0 ≤ bestTier.feeRate := h7 bestTier hmem
    simp only [calculateEffectiveFeeRate, bestApplicableTier, h1, h2, h3,
      hfind, Bool.or_false, Bool.false_eq_true, if_false]
    by_cases hlt : bestTier.feeRate <
        referralConfig.baseFeeRate * (1 - user.feeDiscountRate)
    · simp only [if_pos hlt]
      have hle : bestTier.feeRate ≤ referralConfig.baseFeeRate :=
        le_trans (le_of_lt hlt) hdbr1
      refine ⟨hrate0, hle, trivial, ?_⟩
      have := mul_le_mul_of_nonneg_left hle h4
      linarith
    · simp only [if_neg hlt]
      refine ⟨hdbr0, hdbr1, trivial, ?_⟩
      have := mul_le_mul_of_nonneg_left hdbr1 h4
      linarith

/-- Claim C3 (amended), instantiated: the discounted trader at scenario 3,
whose applied rate 0.008 sits inside `[0, 0.01]` with rebate 2. -/
theorem fee_rate_bounds_witness :
    0 ≤ (calculateEffectiveFeeRate discountTrader 1000
          configFeeTiers).appliedFeeRate ∧
      (calculateEffectiveFeeRate discountTrader 1000
            configFeeTiers).appliedFeeRate ≤
        (calculateEffectiveFeeRate discountTrader 1000
            configFeeTiers).originalFeeRate ∧
      (calculateEffectiveFeeRate discountTrader 1000
            configFeeTiers).rebateAmount =
        (calculateEffectiveFeeRate discountTrader 1000
              configFeeTiers).feeAmount -
          (calculateEffectiveFeeRate discountTrader 1000
              configFeeTiers).netFeeAmount ∧
      0 ≤ (calculateEffectiveFeeRate discountTrader 1000
            configFeeTiers).rebateAmount :=
  fee_rate_bounds discountTrader 1000 configFeeTiers rfl rfl rfl
    (by norm_num) (by norm_num [discountTrader]) (by norm_num [discountTrader])
    (by
      intro tier htier
      simp only [configFeeTiers, List.mem_cons, List.not_mem_nil,
        or_false] at htier
      rcases htier with rfl | rfl | rfl | rfl | rfl <;> norm_num)

/-- The first-qualifying-tier scan is monotone in the volume as long as the
scan for the smaller volume succeeds: the tier found for a larger volume
sits no later in the list and, if different, has a strictly larger minimum
volume. -/
theorem find_minVolume_mono {v1 v2 : ℚ} (h12 : v1 ≤ v2) :
    ∀ (l : List FeeTier) (t1 : FeeTier),
      l.find? (fun tier => decide (tier.minimumVolume ≤ v1)) = some t1 →
      ∃ t2, l.find? (fun tier => decide (tier.minimumVolume ≤ v2)) =
          some t2 ∧ t1.minimumVolume ≤ t2.minimumVolume := by
  intro l
  induction l with
  | nil =>
    intro t1 h
    simp at h
  | cons a l ih =>
    intro t1 h
    by_cases h1 : a.minimumVolume ≤ v1
    · rw [List.find?_cons_of_pos _ (by simpa using h1)] at h
      obtain rfl := Option.some.inj h
      refine ⟨a, List.find?_cons_of_pos _ ?_, le_refl _⟩
      simpa using le_trans h1 h12
    · rw [List.find?_cons_of_neg _ (by simpa using h1)] at h
      by_cases h2 : a.minimumVolume ≤ v2
      · refine ⟨a, List.find?_cons_of_pos _ (by simpa using h2), ?_⟩
        have ht1 : t1.minimumVolume ≤ v1 := by
          simpa using List.find?_some h
        have h1lt := not_le.mp h1
        linarith
      · obtain ⟨t2, ht2, hm⟩ := ih t1 h
        refine ⟨t2, ?_, hm⟩
        rw [List.find?_cons_of_neg _ (by simpa using h2)]
        exact ht2

/-- Claim C7 fails as stated: with a catalog whose `BASE` fallback has
minimum volume 1000 while an active tier starts at 5, the fallback path
selects `BASE` at volume 0 but volume 5 selects the tier with minimum
volume 5, so the selected minimum volume decreases as volume grows. -/
theorem optimal_tier_monotone_counterexample :
    (calculateOptimalFeeTier 0 gappedFeeTiers).map
        (fun tier => tier.minimumVolume) = some 1000 ∧
      (calculateOptimalFeeTier 5 gappedFeeTiers).map
        (fun tier => tier.minimumVolume) = some 5 ∧
      (0 : ℚ) ≤ 5 ∧ ¬ ((1000 : ℚ) ≤ 5) := by
  refine ⟨rfl, rfl, by norm_num, by norm_num⟩

/-- Claim C7, amended: the selector is monotone in the volume whenever some
active tier qualifies at the smaller volume (in particular whenever the
catalog has its intended active zero-minimum fallback tier); only the
no-qualifying-tier fallback path can decrease the selected minimum. -/
theorem optimal_tier_monotone (availableFeeTiers : List FeeTier)
    (v1 v2 : ℚ) (h12 : v1 ≤ v2)
    (hq : ∃ tier ∈ availableFeeTiers, tier.isActive = true ∧
      tier.minimumVolume ≤ v1) :
    ∃ t1 t2, calculateOptimalFeeTier v1 availableFeeTiers = some t1 ∧
      calculateOptimalFeeTier v2 availableFeeTiers = some t2 ∧
      t1.minimumVolume ≤ t2.minimumVolume := by
  obtain ⟨tier, htmem, hact, hle⟩ := hq
  have hmem : tier ∈ sortedActiveTiers availableFeeTiers := by
    simp [sortedActiveTiers, List.mem_insertionSort, List.mem_filter,
      htmem, hact]
  have hsome : ((sortedActiveTiers availableFeeTiers).find?
      (fun t => decide (t.minimumVolume ≤ v1))).isSome := by
    rw [List.find?_isSome]
    exact ⟨tier, hmem, by simpa using hle⟩
  obtain ⟨t1, ht1⟩ := Option.isSome_iff_exists.mp hsome
  obtain ⟨t2, ht2, hmin⟩ := find_minVolume_mono h12 _ t1 ht1
  refine ⟨t1, t2, ?_, ?_, hmin⟩
  · simp only [calculateOptimalFeeTier, ht1]
  · simp only [calculateOptimalFeeTier, ht2]

/-- Claim C7 (amended), instantiated on the configured catalog: volume 0
selects the zero-minimum `BASE` tier and volume 15000 a tier with a larger
minimum. -/
theorem optimal_tier_monotone_witness :
    ∃ t1 t2, calculateOptimalFeeTier 0 configFeeTiers = some t1 ∧
      calculateOptimalFeeTier 15000 configFeeTiers = some t2 ∧
      t1.minimumVolume ≤ t2.minimumVolume :=
  optimal_tier_monotone configFeeTiers 0 15000 (by norm_num)
    ⟨{ id := "ft-base", name := "BASE", minimumVolume := 0,
       feeRate := 1 / 100, isActive := true, priority := 0 },
     by simp [configFeeTiers], rfl, by norm_num⟩

/-- Left folds adding amounts compute list sums. -/
theorem foldl_add_amount (l : List Commission) (a : ℚ) :
    l.foldl (fun sum c => sum + c.amount) a =
      a + (l.map (fun c => c.amount)).sum := by
  induction l generalizing a with
  | nil => simp
  | cons c l ih =>
    rw [List.foldl_cons, ih, List.map_cons, List.sum_cons]
    ring

/-- A sum of amounts splits along any Boolean predicate. -/
theorem sum_amount_filter_add (l : List Commission) (p : Commission → Bool) :
    ((l.filter p).map (fun c => c.amount)).sum +
      ((l.filter (fun c => !(p c))).map (fun c => c.amount)).sum =
      (l.map (fun c => c.amount)).sum := by
  induction l with
  | nil => simp
  | cons c l ih =>
    cases hc : p c <;> simp [List.filter_cons, hc] <;> linarith [ih]

/-- Claim C8: the earnings aggregator first keeps exactly the commissions
whose creation date lies in the optional window with both bounds inclusive;
on that filtered set `totalEarnings` sums every amount, `claimedEarnings`
sums only `CLAIMED` amounts, and
`unclaimedEarnings = totalEarnings - claimedEarnings`, which is the sum
over every non-`CLAIMED` status (`UNCLAIMED`, `PROCESSING` and `FAILED`
alike). -/
theorem earnings_breakdown_spec (commissions : List Commission)
    (startDate endDate : Option Int) :
    (calculateEarningsBreakdown commissions startDate
          endDate).totalEarnings =
        ((commissions.filter (keptInWindowSpec startDate endDate)).map
          (fun c => c.amount)).sum ∧
      (calculateEarningsBreakdown commissions startDate
          endDate).claimedEarnings =
        (((commissions.filter (keptInWindowSpec startDate
            endDate)).filter (fun c =>
              c.status == CommissionStatus.CLAIMED)).map
          (fun c => c.amount)).sum ∧
      (calculateEarningsBreakdown commissions startDate
          endDate).unclaimedEarnings =
        (calculateEarningsBreakdown commissions startDate
            endDate).totalEarnings -
          (calculateEarningsBreakdown commissions startDate
              endDate).claimedEarnings ∧
      (calculateEarningsBreakdown commissions startDate
          endDate).unclaimedEarnings =
        (((commissions.filter (keptInWindowSpec startDate
            endDate)).filter (fun c =>
              !(c.status == CommissionStatus.CLAIMED))).map
          (fun c => c.amount)).sum := by
  have hpt : ∀ c : Commission,
      (if startDate.any (fun sd => decide (c.createdAt < sd)) then false
       else if endDate.any (fun ed => decide (ed < c.createdAt)) then false
       else true) = keptInWindowSpec startDate endDate c := by
    intro c
    cases startDate with
    | none =>
      cases endDate with
      | none => simp [keptInWindowSpec]
      | some ed =>
        by_cases h2 : ed < c.createdAt
        · simp [keptInWindowSpec, h2, show ¬ c.createdAt ≤ ed from by omega]
        · simp [keptInWindowSpec, h2, show c.createdAt ≤ ed from by omega]
    | some sd =>
      cases endDate with
      | none =>
        by_cases h1 : c.createdAt < sd
        · simp [keptInWindowSpec, h1, show ¬ sd ≤ c.createdAt from by omega]
        · simp [keptInWindowSpec, h1, show sd ≤ c.createdAt from by omega]
      | some ed =>
        by_cases h1 : c.createdAt < sd
        · simp [keptInWindowSpec, h1, show ¬ sd ≤ c.createdAt from by omega]
        · by_cases h2 : ed < c.createdAt
          · simp [keptInWindowSpec, h1, h2,
              show ¬ c.createdAt ≤ ed from by omega]
          · simp [keptInWindowSpec, h1, h2,
              show sd ≤ c.createdAt from by omega,
              show c.createdAt ≤ ed from by omega]
  have hkeep :
      (if startDate.isSome || endDate.isSome then
        commissions.filter (fun commission =>
          if startDate.any
              (fun sd => decide (commission.createdAt < sd)) then false
          else if endDate.any
              (fun ed => decide (ed < commission.createdAt)) then false
          else true)
      else commissions) =
      commissions.filter (keptInWindowSpec startDate endDate) := by
    cases hs : (startDate.isSome || endDate.isSome) with
    | true =>
      simp only [if_true]
      exact List.filter_congr (fun c _ => hpt c)
    | false =>
      cases startDate with
      | some sd => simp at hs
      | none =>
        cases endDate with
        | some ed => simp at hs
        | none =>
          rw [if_neg (by simp)]
          rw [show keptInWindowSpec (none : Option Int) none =
              (fun _ => true) from funext fun c => rfl]
          rw [List.filter_true]
  have hEB : calculateEarningsBreakdown commissions startDate endDate =
      { totalEarnings :=
          ((commissions.filter (keptInWindowSpec startDate endDate)).map
            (fun c => c.amount)).sum,
        claimedEarnings :=
          (((commissions.filter (keptInWindowSpec startDate
              endDate)).filter (fun c =>
                c.status == CommissionStatus.CLAIMED)).map
            (fun c => c.amount)).sum,
        unclaimedEarnings :=
          ((commissions.filter (keptInWindowSpec startDate endDate)).map
            (fun c => c.amount)).sum -
          (((commissions.filter (keptInWindowSpec startDate
              endDate)).filter (fun c =>
                c.status == CommissionStatus.CLAIMED)).map
            (fun c => c.amount)).sum } := by
    unfold calculateEarningsBreakdown
    simp only [hkeep, foldl_add_amount, zero_add]
  rw [hEB]
  refine ⟨rfl, rfl, rfl, ?_⟩
  have hsplit := sum_amount_filter_add
    (commissions.filter (keptInWindowSpec startDate endDate))
    (fun c => c.status == CommissionStatus.CLAIMED)
  simp only []
  linarith [hsplit]

end Nika
